import Mathlib

/-!
Shallow embedding of the xonsh front-end core (src/xonsh/completer.py and
src/xonsh/parser.py), together with theorems settling the behavioural
claims about the Completer dispatch protocol, the Location/error-reporting
machinery, the parse-time scope-stack reset, and the operator precedence
table.

Python dynamic values are modelled by an inductive `PyVal`; exceptions by
`PyErr`; fallible code returns `Except PyErr _`.
-/

namespace Xonsh

/-- The Python exceptions the embedded code can raise. -/
inductive PyErr where
  | nameError
  | valueError
  | typeError
  | attributeError
  | syntaxError (msg : String)
  | raised (tag : String)
deriving DecidableEq

/-- Python runtime values, restricted to the shapes flowing through the
completer: `None`, ints, strings, tuples, lists and sets. -/
inductive PyVal where
  | vnone
  | vint (n : Nat)
  | vstr (s : String)
  | vtuple (xs : List PyVal)
  | vlist (xs : List PyVal)
  | vset (xs : List PyVal)

/-- `isinstance(v, collections.abc.Sequence)`: strings, tuples and lists are
Sequences; `None`, ints and sets are not. -/
def isSequence : PyVal → Bool
  | .vstr _ => true
  | .vtuple _ => true
  | .vlist _ => true
  | _ => false

/-- The elements produced when iterating a Sequence: tuple/list elements, or
the characters of a string as one-character strings. -/
def seqElems : PyVal → List PyVal
  | .vstr s => s.data.map (fun c => .vstr (String.mk [c]))
  | .vtuple xs => xs
  | .vlist xs => xs
  | _ => []

/-- The elements produced when iterating any of the modelled containers
(also sets, which are not Sequences). -/
def iterElems : PyVal → List PyVal
  | .vset xs => xs
  | v => seqElems v

/-- `res, lprefix = out` — iterable unpacking into two targets raises
ValueError unless the Sequence has exactly two elements. -/
def unpack2 (out : PyVal) : Except PyErr (PyVal × PyVal) :=
  match seqElems out with
  | [a, b] => .ok (a, b)
  | _ => .error .valueError

/-- `len(v)`: defined for strings and containers; `None` and ints raise
TypeError. -/
def pyLen : PyVal → Except PyErr Nat
  | .vstr s => .ok s.length
  | .vtuple xs => .ok xs.length
  | .vlist xs => .ok xs.length
  | .vset xs => .ok xs.length
  | _ => .error .typeError

/-! Python's `<` on strings is lexicographic comparison of code points; we
embed it as a boolean comparison on the character lists so that all
evaluations reduce in the kernel. -/

/-- Code-point comparison of characters. -/
def charLtB (a b : Char) : Bool := decide (a.toNat < b.toNat)

/-- Code-point equality of characters. -/
def charEqB (a b : Char) : Bool := decide (a.toNat = b.toNat)

/-- Lexicographic strict order on character lists, as Python compares
strings. -/
def lexLtB : List Char → List Char → Bool
  | [], [] => false
  | [], _ :: _ => true
  | _ :: _, [] => false
  | a :: as, b :: bs => charLtB a b || (charEqB a b && lexLtB as bs)

/-- Python's `a < b` on strings. -/
def strLtB (a b : String) : Bool := lexLtB a.data b.data

/-- Python's `a <= b` on strings (total order: `not (b < a)`). -/
def strLeB (a b : String) : Bool := !(strLtB b a)

/-- `a <= b` on Python ints (here: naturals). -/
def natLeB (a b : Nat) : Bool := decide (a ≤ b)

/-- Stable insertion into a sorted list, the building block of the model of
Python's `sorted`. -/
def insertLe {α : Type} (le : α → α → Bool) (x : α) : List α → List α
  | [] => [x]
  | y :: ys => if le x y then x :: y :: ys else y :: insertLe le x ys

/-- Stable ascending sort (insertion sort), the model of Python's
`sorted`. -/
def sortLe {α : Type} (le : α → α → Bool) : List α → List α
  | [] => []
  | x :: xs => insertLe le x (sortLe le xs)

/-- Collect the elements of a list of values when all are strings. -/
def allStrs : List PyVal → Option (List String)
  | [] => some []
  | .vstr s :: rest => (allStrs rest).map (s :: ·)
  | _ => none

/-- Collect the elements of a list of values when all are ints. -/
def allInts : List PyVal → Option (List Nat)
  | [] => some []
  | .vint n :: rest => (allInts rest).map (n :: ·)
  | _ => none

/-- `sorted(v)` on the value shapes the completer can reach it with: a
homogeneous collection of strings (resp. ints) sorts ascending and stably
by code point (resp. value), as Python's sorted does; heterogeneous element
types raise TypeError, as in Python 3. -/
def pySorted (v : PyVal) : Except PyErr (List PyVal) :=
  let es := iterElems v
  match allStrs es with
  | some ss => .ok ((sortLe strLeB ss).map .vstr)
  | none =>
    match allInts es with
    | some ns => .ok ((sortLe natLeB ns).map .vint)
    | none => .error .typeError

/-! ## Completer (src/xonsh/completer.py) -/

/-- What one call to a registered provider does: return a Python value,
raise StopIteration (the distinguished abort signal of line 42), or raise
some other exception. -/
inductive ProviderStep where
  | ret (out : PyVal)
  | stopIteration
  | raiseExc (e : PyErr)

/-- A completion provider, as called on line 41:
`func(prefix, line, begidx, endidx, ctx)`. -/
def Provider := String → String → Nat → Nat → List String → ProviderStep

/-- Line 38, `ctx = ctx or {}`: a missing (`None`) context is replaced by
the empty one. -/
def normCtx (ctx : Option (List String)) : List String := ctx.getD []

/-- Lines 44-48 of `Completer.complete`: a Sequence return value is
unpacked as `res, lprefix = out`; any other value is taken as the bare
candidates with the replacement length defaulting to `len(prefix)`. -/
def resolveOut (pfx : String) (out : PyVal) : Except PyErr (PyVal × PyVal) :=
  if isSequence out then unpack2 out
  else .ok (out, .vint pfx.length)

/-- The effect of consulting one provider inside the loop of
`Completer.complete` (lines 40-50). -/
inductive StepOutcome where
  | abortAll
  | err (e : PyErr)
  | produce (xs : List PyVal) (lp : PyVal)
  | skip (lp : PyVal)

/-- Lines 49-50 given the interpreted `(res, lprefix)`:
`res is not None and len(res) != 0` decides between returning
`tuple(sorted(res)), lprefix` and falling through to the next provider
(with `lprefix` staying bound); `len` or `sorted` failures propagate. -/
def interpRes (res lp : PyVal) : StepOutcome :=
  match res with
  | .vnone => .skip lp
  | res =>
    match pyLen res with
    | .error e => .err e
    | .ok 0 => .skip lp
    | .ok (_ + 1) =>
      match pySorted res with
      | .error e => .err e
      | .ok xs => .produce xs lp

/-- One iteration of the provider loop (lines 40-50): StopIteration aborts
everything; another exception propagates; otherwise the return value is
interpreted (lines 44-48) and handed to the lines 49-50 test. -/
def interpStep (pfx : String) (s : ProviderStep) : StepOutcome :=
  match s with
  | .stopIteration => .abortAll
  | .raiseExc e => .err e
  | .ret out =>
    match resolveOut pfx out with
    | .error e => .err e
    | .ok (res, lp) => interpRes res lp

/-- A step outcome that does not propagate an exception out of the loop. -/
def stepOk : StepOutcome → Bool
  | .err _ => false
  | _ => true

/-- The provider loop of `Completer.complete` (lines 39-51), paired with a
count of how many providers were invoked.  The `Option PyVal` argument
tracks whether the local variable `lprefix` has been bound yet: reaching
the end of the registry with it still unbound makes line 51
(`return set(), lprefix`) raise NameError on the unbound local. -/
def completeAux (pfx line : String) (begidx endidx : Nat) (ctx : List String) :
    List Provider → Option PyVal → Except PyErr (PyVal × PyVal) × Nat
  | [], none => (.error .nameError, 0)
  | [], some lp => (.ok (.vset [], lp), 0)
  | f :: rest, _ =>
    match interpStep pfx (f pfx line begidx endidx ctx) with
    | .abortAll => (.ok (.vset [], .vint pfx.length), 1)
    | .err e => (.error e, 1)
    | .produce xs lp => (.ok (.vtuple xs, lp), 1)
    | .skip lp =>
      let r := completeAux pfx line begidx endidx ctx rest (some lp)
      (r.1, r.2 + 1)

/-- `Completer.complete(prefix, line, begidx, endidx, ctx)` over a registry
given as the insertion-ordered list of `builtins.__xonsh_completers__`
values.  (The constructor's `update_bash_completion()` side effect is an
external collaborator call and is not modelled.) -/
def complete (registry : List Provider) (pfx line : String)
    (begidx endidx : Nat) (ctx : Option (List String)) :
    Except PyErr (PyVal × PyVal) :=
  (completeAux pfx line begidx endidx (normCtx ctx) registry none).1

/-- How many providers a `complete` call invokes. -/
def invoked (registry : List Provider) (pfx line : String)
    (begidx endidx : Nat) (ctx : Option (List String)) : Nat :=
  (completeAux pfx line begidx endidx (normCtx ctx) registry none).2

/-- The ascending-order relation on Python values that `sorted` establishes
on homogeneous string or int collections. -/
def pvLeB : PyVal → PyVal → Bool
  | .vstr a, .vstr b => strLeB a b
  | .vint a, .vint b => natLeB a b
  | _, _ => false

/-! ## Parser (src/xonsh/parser.py): Location and error reporting -/

/-- The attributes a `Location` object would carry (`__init__` lines
14-18). -/
structure LocationObj where
  fname : String
  lineno : Nat
  column : Option Nat
deriving DecidableEq

namespace Location

/-- `Location.__init__(self, fname, lineno, column=None)`, statement by
statement: `self.fname = fname` succeeds, but line 17 is
`self.lineno = line` and no name `line` is bound in the constructor (the
parameter is `lineno`), so every construction raises
`NameError: name 'line' is not defined` before an object is produced. -/
def init (fname : String) (lineno : Nat) (column : Option Nat) :
    Except PyErr LocationObj :=
  .error .nameError

/-- `Location.__str__` (lines 20-24): `"fname:lineno"` plus `":column"`
when the column is present. -/
def str (l : LocationObj) : String :=
  let s := l.fname ++ ":" ++ toString l.lineno
  match l.column with
  | some c => s ++ ":" ++ toString c
  | none => s

end Location

/-- The lookahead-token data `p_error` consumes: `p.value` and
`p.lineno`. -/
structure Token where
  value : String
  lineno : Nat
deriving DecidableEq

/-- `repr()` of a Python string without quotes or escapes in it, as it
appears when a tuple is formatted into a message. -/
def pyReprStr (s : String) : String := "'" ++ s ++ "'"

/-- `str()` of the two message shapes `_parse_error` can be handed: a plain
string, or — because of the trailing comma on parser.py line 474 — a
1-tuple of a string, which formats as `"('…',)"`. -/
def msgStr : PyVal → String
  | .vstr s => s
  | .vtuple [.vstr s] => "(" ++ pyReprStr s ++ ",)"
  | _ => ""

/-- `Parser._parse_error(msg, loc)` (lines 135-136): raises
`SyntaxError("{0}: {1}".format(loc, msg))`.  The `loc` argument is passed
already formatted: `p_error` hands it either `str(Location(...))` or the
literal empty string. -/
def parse_error (locStr : String) (msg : PyVal) : PyErr :=
  .syntaxError (locStr ++ ": " ++ msgStr msg)

/-- `Parser.currloc(lineno, column=None)` (lines 130-133): constructs a
`Location` from `self.lexer.fname` — and therefore raises the NameError of
`Location.__init__`. -/
def currloc (fname : String) (lineno : Nat) (column : Option Nat) :
    Except PyErr LocationObj :=
  Location.init fname lineno column

/-- `Parser.p_error(p)` (lines 472-478), with the external lexer's
`token_col(p)` result supplied as `tokCol`.  Returns the exception the call
raises (both branches raise).  With a token present, line 474 builds
`msg = ('code: {0}'.format(p.value),)` — a 1-tuple — and line 475 calls
`self.currloc(...)`, whose `Location` construction raises NameError before
`_parse_error` can build a SyntaxError.  With no token,
`_parse_error('no further code', '')` raises
`SyntaxError(": no further code")`. -/
def p_error (fname : String) (p : Option Token) (tokCol : Nat) : PyErr :=
  match p with
  | some tok =>
    let msg : PyVal := .vtuple [.vstr ("code: " ++ tok.value)]
    match currloc fname tok.lineno (some tokCol) with
    | .error e => e
    | .ok loc => parse_error (Location.str loc) msg
  | none => parse_error "" (.vstr "no further code")

/-! ## Parser state and `parse` -/

/-- One scope of the scope stack: a mapping from name to "is this name a
type here" (parser.py lines 72-80). -/
abbrev Scope := List (String × Bool)

/-- The mutable state `parse` touches: the lexer's filename and position,
the scope stack, and the remembered lookahead token. -/
structure ParserState where
  lexer_filename : String
  lexer_lineno : Nat
  scope_stack : List Scope
  last_yielded_token : Option Token
deriving DecidableEq

/-- `Parser.parse(s, filename='<code>', debug_level=0)` (lines 85-107) as a
state transformer.  Lines 101-104 unconditionally reset the lexer filename
and position, the scope stack (to a single empty scope) and the remembered
lookahead token; line 105 then reads `self.cparser`, an attribute that
`__init__` never creates (it stores the yacc engine as `self.parser`,
line 68), so the call raises AttributeError after the reset and before any
grammar-engine activity. -/
def Parser.parse (σ : ParserState) (s filename : String) :
    Except PyErr PyVal × ParserState :=
  let σ₁ : ParserState :=
    { lexer_filename := filename
      lexer_lineno := 0
      scope_stack := [[]]
      last_yielded_token := none }
  (.error .attributeError, σ₁)

/-! ## Precedence table and the grammar engine's use of it -/

/-- Operator associativity in the precedence table. -/
inductive Assoc where
  | left
deriving DecidableEq

/-- `Parser.precedence` (lines 141-153), verbatim: an ordered list of
`(associativity, operator-set)` entries, lowest to highest precedence, all
left-associative. -/
def precedence : List (Assoc × List String) :=
  [ (.left, ["LOGIC_OR"]),
    (.left, ["LOGIC_AND"]),
    (.left, ["PIPE"]),
    (.left, ["XOR"]),
    (.left, ["AMPERSAND"]),
    (.left, ["EQ", "NE"]),
    (.left, ["GT", "GE", "LT", "LE"]),
    (.left, ["RSHIFT", "LSHIFT"]),
    (.left, ["PLUS", "MINUS"]),
    (.left, ["TIMES", "DIVIDE", "MOD"]),
    (.left, ["POW"]) ]

/-- The precedence level of an operator terminal: its index in the table
(higher index = binds tighter). -/
def precLevel (t : String) : Option Nat :=
  precedence.findIdx? (fun e => decide (t ∈ e.2))

/-- Tokens of an operator expression: literals, names, and the operator
terminals of the precedence table. -/
inductive Tok where
  | num (n : Nat)
  | name (s : String)
  | op (t : String)
deriving DecidableEq

/-- The syntax tree built for operator expressions. -/
inductive Expr where
  | num (n : Nat)
  | name (s : String)
  | binop (t : String) (l r : Expr)
deriving DecidableEq

/-- An atom: a literal or a name. -/
def parseAtom : List Tok → Option (Expr × List Tok)
  | .num n :: rest => some (.num n, rest)
  | .name s :: rest => some (.name s, rest)
  | _ => none

/-- The two modes of the precedence-climbing loop: parse a whole
(sub)expression at a minimum binding level, or extend an already-parsed
left operand with operators at or above that level. -/
inductive PMode where
  | expr (minL : Nat)
  | chain (minL : Nat) (lhs : Expr)

/-- Modelled from the spec: the shift/reduce engine itself (`ply.yacc`) and
the executable expression productions are not part of src/ (the expression
grammar appears there only inside an unconsumed string, parser.py lines
413-466), so the engine's use of the precedence table is modelled from
§4.1: the table is ordered lowest-to-highest precedence; an operator may
extend the current left operand only when its table level is at least the
current minimum; a left-associative operator parses its right operand one
level tighter, which makes equal-precedence operators group left-to-right
and higher-table operators bind tighter.  Fuel-based to stay structurally
recursive. -/
def pcParse : Nat → PMode → List Tok → Option (Expr × List Tok)
  | 0, _, _ => none
  | fuel + 1, .expr minL, ts =>
    match parseAtom ts with
    | none => none
    | some (lhs, rest) => pcParse fuel (.chain minL lhs) rest
  | fuel + 1, .chain minL lhs, ts =>
    match ts with
    | .op t :: rest =>
      match precLevel t with
      | some l =>
        if minL ≤ l then
          match pcParse fuel (.expr (l + 1)) rest with
          | some (rhs, rest') => pcParse fuel (.chain minL (.binop t lhs rhs)) rest'
          | none => none
        else some (lhs, ts)
      | none => some (lhs, ts)
    | _ => some (lhs, ts)

/-- Parse a complete operator expression (all input consumed). -/
def parseExprToks (ts : List Tok) : Option Expr :=
  match pcParse (2 * ts.length + 2) (.expr 0) ts with
  | some (e, []) => some e
  | _ => none

/-! ## Concrete providers used in witnesses and counterexamples -/

/-- Returns the pair `(["a", "a"], 5)`: non-empty candidates containing a
duplicate. -/
def dupPairProv : Provider := fun _ _ _ _ _ =>
  .ret (.vtuple [.vlist [.vstr "a", .vstr "a"], .vint 5])

/-- Always yields no candidates (returns the empty set). -/
def emptySetProv : Provider := fun _ _ _ _ _ => .ret (.vset [])

/-- Returns `None` (an absent result). -/
def noneProv : Provider := fun _ _ _ _ _ => .ret .vnone

/-- Returns the pair `({"foo", "bar"}, 7)`. -/
def fooBarPairProv : Provider := fun _ _ _ _ _ =>
  .ret (.vtuple [.vset [.vstr "foo", .vstr "bar"], .vint 7])

/-- Returns the pair `({"baz"}, 9)`. -/
def bazPairProv : Provider := fun _ _ _ _ _ =>
  .ret (.vtuple [.vset [.vstr "baz"], .vint 9])

/-- Raises StopIteration, the distinguished abort signal. -/
def abortProv : Provider := fun _ _ _ _ _ => .stopIteration

/-- Raises an exception other than StopIteration. -/
def failProv : Provider := fun _ _ _ _ _ => .raiseExc (.raised "boom")

/-- Returns a bare list — a Sequence — of three candidate strings. -/
def bareListProv : Provider := fun _ _ _ _ _ =>
  .ret (.vlist [.vstr "a", .vstr "b", .vstr "c"])

/-- Returns a bare set of candidate strings. -/
def bareSetProv : Provider := fun _ _ _ _ _ =>
  .ret (.vset [.vstr "foo", .vstr "bar"])

/-- Returns the pair `(∅, 4)`: empty candidates with a reported
replacement length. -/
def emptyPairProv : Provider := fun _ _ _ _ _ =>
  .ret (.vtuple [.vset [], .vint 4])

/-! ## Order lemmas for the embedded string comparison -/

theorem charEqB_eq {a b : Char} (h : charEqB a b = true) : a = b := by
  have hn : a.toNat = b.toNat := by simpa [charEqB] using h
  exact Char.eq_of_val_eq (UInt32.ext hn)

theorem lexLtB_asymm : ∀ {as bs : List Char},
    lexLtB as bs = true → lexLtB bs as = true → False := by
  intro as
  induction as with
  | nil => intro bs h₁ h₂; cases bs <;> simp_all [lexLtB]
  | cons a as ih =>
    intro bs h₁ h₂
    cases bs with
    | nil => simp [lexLtB] at h₁
    | cons b bs =>
      simp only [lexLtB, Bool.or_eq_true, Bool.and_eq_true, charLtB, charEqB,
        decide_eq_true_eq] at h₁ h₂
      rcases h₁ with h₁ | ⟨he₁, hr₁⟩ <;> rcases h₂ with h₂ | ⟨he₂, hr₂⟩
      · omega
      · omega
      · omega
      · exact ih hr₁ hr₂

theorem lexLtB_trans : ∀ {as bs cs : List Char},
    lexLtB as bs = true → lexLtB bs cs = true → lexLtB as cs = true := by
  intro as
  induction as with
  | nil =>
    intro bs cs h₁ h₂
    cases bs with
    | nil => simp [lexLtB] at h₁
    | cons b bs => cases cs <;> simp_all [lexLtB]
  | cons a as ih =>
    intro bs cs h₁ h₂
    cases bs with
    | nil => simp [lexLtB] at h₁
    | cons b bs =>
      cases cs with
      | nil => simp [lexLtB] at h₂
      | cons c cs =>
        simp only [lexLtB, Bool.or_eq_true, Bool.and_eq_true, charLtB, charEqB,
          decide_eq_true_eq] at h₁ h₂ ⊢
        rcases h₁ with h₁ | ⟨he₁, hr₁⟩ <;> rcases h₂ with h₂ | ⟨he₂, hr₂⟩
        · left; omega
        · left; omega
        · left; omega
        · right; exact ⟨by omega, ih hr₁ hr₂⟩

theorem lexLtB_conn : ∀ {as bs : List Char},
    lexLtB as bs = false → lexLtB bs as = false → as = bs := by
  intro as
  induction as with
  | nil => intro bs h₁ h₂; cases bs <;> simp_all [lexLtB]
  | cons a as ih =>
    intro bs h₁ h₂
    cases bs with
    | nil => simp [lexLtB] at h₂
    | cons b bs =>
      rw [Bool.eq_false_iff] at h₁ h₂
      simp only [ne_eq, lexLtB, Bool.or_eq_true, Bool.and_eq_true, charLtB, charEqB,
        decide_eq_true_eq, not_or, not_and] at h₁ h₂
      obtain ⟨hn₁, hi₁⟩ := h₁
      obtain ⟨hn₂, hi₂⟩ := h₂
      have hab : a.toNat = b.toNat := by omega
      have : a = b := charEqB_eq (by simpa [charEqB] using hab)
      subst this
      have hr₁ : lexLtB as bs = false := by
        rcases hx : lexLtB as bs with _ | _
        · rfl
        · exact absurd hx (hi₁ rfl)
      have hr₂ : lexLtB bs as = false := by
        rcases hx : lexLtB bs as with _ | _
        · rfl
        · exact absurd hx (hi₂ rfl)
      rw [ih hr₁ hr₂]

theorem strLeB_total (a b : String) : strLeB a b = true ∨ strLeB b a = true := by
  cases h : strLtB b a
  · left; simp [strLeB, h]
  · right
    cases hc : strLtB a b
    · simp [strLeB, hc]
    · exact (lexLtB_asymm hc h).elim

theorem strLeB_trans {a b c : String} (h₁ : strLeB a b = true)
    (h₂ : strLeB b c = true) : strLeB a c = true := by
  simp only [strLeB, Bool.not_eq_true', strLtB] at h₁ h₂ ⊢
  by_contra hca
  rw [Bool.not_eq_false] at hca
  rcases hbc : lexLtB b.data c.data with _ | _
  · have : c.data = b.data := lexLtB_conn h₂ hbc
    rw [this] at hca
    rw [hca] at h₁
    cases h₁
  · have : lexLtB b.data a.data = true := lexLtB_trans hbc hca
    rw [this] at h₁
    cases h₁

theorem natLeB_total (a b : Nat) : natLeB a b = true ∨ natLeB b a = true := by
  simp [natLeB, Nat.ble_eq]; omega

theorem natLeB_trans {a b c : Nat} (h₁ : natLeB a b = true)
    (h₂ : natLeB b c = true) : natLeB a c = true := by
  simp [natLeB, Nat.ble_eq] at h₁ h₂ ⊢; omega

/-! ## Sortedness of the embedded sort -/

theorem mem_insertLe {α : Type} (le : α → α → Bool) (x y : α) :
    ∀ l : List α, y ∈ insertLe le x l → y = x ∨ y ∈ l := by
  intro l
  induction l with
  | nil => intro h; simp [insertLe] at h; exact Or.inl h
  | cons z zs ih =>
    intro h
    simp only [insertLe] at h
    by_cases hle : le x z = true
    · simp [hle] at h
      rcases h with h | h | h
      · exact Or.inl h
      · exact Or.inr (by simp [h])
      · exact Or.inr (by simp [h])
    · simp [hle] at h
      rcases h with h | h
      · exact Or.inr (by simp [h])
      · rcases ih h with h | h
        · exact Or.inl h
        · exact Or.inr (by simp [h])

theorem insertLe_pairwise {α : Type} (le : α → α → Bool)
    (htot : ∀ a b, le a b = true ∨ le b a = true)
    (htr : ∀ {a b c}, le a b = true → le b c = true → le a c = true)
    (x : α) : ∀ l : List α, l.Pairwise (le · · = true) →
    (insertLe le x l).Pairwise (le · · = true) := by
  intro l
  induction l with
  | nil => intro _; simp [insertLe]
  | cons y ys ih =>
    intro h
    rw [List.pairwise_cons] at h
    obtain ⟨hy, hys⟩ := h
    simp only [insertLe]
    by_cases hle : le x y = true
    · simp only [hle, if_true]
      rw [List.pairwise_cons]
      refine ⟨?_, List.Pairwise.cons hy hys⟩
      intro z hz
      rcases List.mem_cons.mp hz with rfl | hz
      · exact hle
      · exact htr hle (hy _ hz)
    · simp only [hle, if_false, Bool.false_eq_true]
      rw [List.pairwise_cons]
      constructor
      · intro z hz
        rcases mem_insertLe le x z ys hz with hzx | hz
        · rw [hzx]
          rcases htot x y with h | h
          · exact absurd h hle
          · exact h
        · exact hy _ hz
      · exact ih hys

theorem sortLe_pairwise {α : Type} (le : α → α → Bool)
    (htot : ∀ a b, le a b = true ∨ le b a = true)
    (htr : ∀ {a b c}, le a b = true → le b c = true → le a c = true) :
    ∀ l : List α, (sortLe le l).Pairwise (le · · = true) := by
  intro l
  induction l with
  | nil => simp [sortLe]
  | cons x xs ih => exact insertLe_pairwise le htot htr x _ ih

theorem pySorted_pairwise {v : PyVal} {xs : List PyVal}
    (h : pySorted v = .ok xs) : xs.Pairwise (pvLeB · · = true) := by
  simp only [pySorted] at h
  cases hs : allStrs (iterElems v) with
  | some ss =>
    rw [hs] at h
    simp only [Except.ok.injEq] at h
    subst h
    rw [List.pairwise_map]
    exact (sortLe_pairwise strLeB strLeB_total strLeB_trans ss).imp (fun h => h)
  | none =>
    rw [hs] at h
    cases hn : allInts (iterElems v) with
    | some ns =>
      rw [hn] at h
      simp only [Except.ok.injEq] at h
      subst h
      rw [List.pairwise_map]
      exact (sortLe_pairwise natLeB natLeB_total natLeB_trans ns).imp (fun h => h)
    | none => rw [hn] at h; cases h

/-! ## Behaviour of the provider loop -/

theorem interpRes_produce {res lp : PyVal} {xs : List PyVal} {lp' : PyVal}
    (h : interpRes res lp = .produce xs lp') :
    pySorted res = .ok xs ∧ lp' = lp := by
  unfold interpRes at h
  split at h
  · exact StepOutcome.noConfusion h
  · split at h
    · exact StepOutcome.noConfusion h
    · exact StepOutcome.noConfusion h
    · split at h
      · exact StepOutcome.noConfusion h
      · next heq =>
        injection h with hxs hlp
        subst hxs
        subst hlp
        exact ⟨heq, rfl⟩

theorem interpStep_produce_sorted {pfx : String} {s : ProviderStep}
    {xs : List PyVal} {lp : PyVal}
    (h : interpStep pfx s = .produce xs lp) :
    xs.Pairwise (pvLeB · · = true) := by
  unfold interpStep at h
  split at h
  · exact StepOutcome.noConfusion h
  · exact StepOutcome.noConfusion h
  · split at h
    · exact StepOutcome.noConfusion h
    · exact pySorted_pairwise (interpRes_produce h).1

/-- Providers whose interpreted result is `skip` pass through the loop,
only rebinding `lprefix` and adding to the invocation count. -/
theorem completeAux_skips (pfx line : String) (b e : Nat) (ctx : List String)
    (r₁ rest : List Provider)
    (h₁ : ∀ g ∈ r₁, ∃ lp', interpStep pfx (g pfx line b e ctx) = .skip lp') :
    ∀ lpo : Option PyVal, ∃ lpo' : Option PyVal,
      completeAux pfx line b e ctx (r₁ ++ rest) lpo
        = ((completeAux pfx line b e ctx rest lpo').1,
           (completeAux pfx line b e ctx rest lpo').2 + r₁.length) := by
  induction r₁ with
  | nil => exact fun lpo => ⟨lpo, by simp⟩
  | cons g gs ih =>
    intro lpo
    obtain ⟨lp', hg⟩ := h₁ g (List.mem_cons_self g gs)
    obtain ⟨lpo', hrec⟩ := ih (fun g' hg' => h₁ g' (List.mem_cons_of_mem _ hg')) (some lp')
    refine ⟨lpo', ?_⟩
    show completeAux pfx line b e ctx (g :: (gs ++ rest)) lpo = _
    simp only [completeAux, hg, hrec, List.length_cons]
    rw [Nat.add_assoc]

theorem allStrs_map (ss : List String) : allStrs (ss.map PyVal.vstr) = some ss := by
  induction ss with
  | nil => rfl
  | cons s t ih => simp [allStrs, ih]

/-! ## Claims about the Completer -/

/-- C1, counterexample: a provider returning the pair `(["a", "a"], 5)` is
the first (and only) provider yielding a non-empty candidate collection,
yet `complete` keeps the duplicate — `tuple(sorted(res))` sorts but does
not deduplicate, so the returned candidates are not "sorted, deduplicated"
as the claim states. -/
theorem c1_no_dedup_counterexample :
    complete [dupPairProv] "ab" "ab" 0 2 none
      = .ok (.vtuple [.vstr "a", .vstr "a"], .vint 5)
    ∧ ¬ [PyVal.vstr "a", PyVal.vstr "a"].Nodup := by
  refine ⟨rfl, ?_⟩
  intro h
  exact (List.nodup_cons.mp h).1 (List.mem_singleton.mpr rfl)

/-- C1 (amended): if every provider before `f` (in registration order)
yields an empty or absent candidate collection and `f`'s interpreted result
is the non-empty candidate list `xs` (sorted, duplicates preserved) with
replacement length `lp`, then `complete` returns `(tuple xs, lp)`, invokes
exactly the providers up to and including `f`, and never consults a later
provider; `xs` is ascending but not deduplicated. -/
theorem complete_first_nonempty (r₁ r₂ : List Provider) (f : Provider)
    (pfx line : String) (b e : Nat) (ctx : Option (List String))
    (xs : List PyVal) (lp : PyVal)
    (h₁ : ∀ g ∈ r₁, ∃ lp', interpStep pfx (g pfx line b e (normCtx ctx)) = .skip lp')
    (h₂ : interpStep pfx (f pfx line b e (normCtx ctx)) = .produce xs lp) :
    complete (r₁ ++ f :: r₂) pfx line b e ctx = .ok (.vtuple xs, lp)
    ∧ invoked (r₁ ++ f :: r₂) pfx line b e ctx = r₁.length + 1
    ∧ xs.Pairwise (pvLeB · · = true) := by
  obtain ⟨lpo', hrec⟩ := completeAux_skips pfx line b e (normCtx ctx) r₁ (f :: r₂) h₁ none
  have hstep : completeAux pfx line b e (normCtx ctx) (f :: r₂) lpo'
      = (.ok (.vtuple xs, lp), 1) := by
    simp only [completeAux, h₂]
  refine ⟨?_, ?_, interpStep_produce_sorted h₂⟩
  · simp [complete, hrec, hstep]
  · simp [invoked, hrec, hstep, Nat.add_comm]

/-- Witness for `complete_first_nonempty` at a concrete registry: an empty
provider, then `({"foo", "bar"}, 7)`, then `({"baz"}, 9)`. -/
theorem complete_first_nonempty_witness :
    complete [emptySetProv, fooBarPairProv, bazPairProv] "ab" "abc" 0 2 none
      = .ok (.vtuple [.vstr "bar", .vstr "foo"], .vint 7)
    ∧ invoked [emptySetProv, fooBarPairProv, bazPairProv] "ab" "abc" 0 2 none = 2
    ∧ ([PyVal.vstr "bar", PyVal.vstr "foo"]).Pairwise (pvLeB · · = true) :=
  complete_first_nonempty [emptySetProv] [bazPairProv] fooBarPairProv
    "ab" "abc" 0 2 none [.vstr "bar", .vstr "foo"] (.vint 7)
    (fun g hg => by
      rw [List.mem_singleton] at hg
      subst hg
      exact ⟨.vint 2, rfl⟩)
    rfl

/-- C2: if the providers before `f` yield empty or absent results and `f`
raises the abort signal (StopIteration), `complete` immediately returns the
empty candidate set with replacement length `len(prefix)`, and no provider
after `f` is consulted, whatever it would return. -/
theorem complete_abort (r₁ r₂ : List Provider) (f : Provider)
    (pfx line : String) (b e : Nat) (ctx : Option (List String))
    (h₁ : ∀ g ∈ r₁, ∃ lp', interpStep pfx (g pfx line b e (normCtx ctx)) = .skip lp')
    (h₂ : f pfx line b e (normCtx ctx) = .stopIteration) :
    complete (r₁ ++ f :: r₂) pfx line b e ctx = .ok (.vset [], .vint pfx.length)
    ∧ invoked (r₁ ++ f :: r₂) pfx line b e ctx = r₁.length + 1 := by
  obtain ⟨lpo', hrec⟩ := completeAux_skips pfx line b e (normCtx ctx) r₁ (f :: r₂) h₁ none
  have hstep : completeAux pfx line b e (normCtx ctx) (f :: r₂) lpo'
      = (.ok (.vset [], .vint pfx.length), 1) := by
    simp only [completeAux, h₂, interpStep]
  exact ⟨by simp [complete, hrec, hstep], by simp [invoked, hrec, hstep, Nat.add_comm]⟩

/-- Witness for `complete_abort`: the aborting provider sits between an
absent-result provider and one that would return `({"foo", "bar"}, 7)`. -/
theorem complete_abort_witness :
    complete [noneProv, abortProv, fooBarPairProv] "abc" "abcd" 0 3 none
      = .ok (.vset [], .vint 3)
    ∧ invoked [noneProv, abortProv, fooBarPairProv] "abc" "abcd" 0 3 none = 2 :=
  complete_abort [noneProv] [fooBarPairProv] abortProv "abc" "abcd" 0 3 none
    (fun g hg => by
      rw [List.mem_singleton] at hg
      subst hg
      exact ⟨.vint 3, rfl⟩)
    rfl

/-- C3, counterexample: with an empty provider registry, `complete` does
not return a `(candidates, replacement_length)` result at all — line 51
reads the never-assigned local `lprefix` and the call raises NameError to
its caller. -/
theorem c3_empty_registry_counterexample :
    complete [] "ab" "ab" 0 2 none = .error .nameError
    ∧ complete [] "ab" "ab" 0 2 none ≠ .ok (.vset [], .vint 2) := by
  have hc : complete [] "ab" "ab" 0 2 none = Except.error PyErr.nameError := rfl
  exact ⟨hc, fun h => Except.noConfusion (hc.symm.trans h)⟩

/-- C3 (amended): for a NON-empty registry each of whose providers either
raises the abort signal or returns a value the loop interprets without an
exception, `complete` returns a `(candidates, replacement_length)` result
(worst case the empty set).  With an empty registry, or with a provider
raising a non-abort exception or returning a malformed value, the call
raises instead. -/
theorem complete_total (regs : List Provider) (pfx line : String)
    (b e : Nat) (ctx : Option (List String)) (hne : regs ≠ [])
    (h : ∀ g ∈ regs, stepOk (interpStep pfx (g pfx line b e (normCtx ctx))) = true) :
    ∃ v, complete regs pfx line b e ctx = .ok v := by
  have main : ∀ rs : List Provider,
      (∀ g ∈ rs, stepOk (interpStep pfx (g pfx line b e (normCtx ctx))) = true) →
      ∀ lpo : Option PyVal, (rs ≠ [] ∨ lpo.isSome) →
      ∃ v, (completeAux pfx line b e (normCtx ctx) rs lpo).1 = .ok v := by
    intro rs
    induction rs with
    | nil =>
      intro _ lpo hcase
      match lpo with
      | some lp => exact ⟨(.vset [], lp), rfl⟩
      | none =>
        rcases hcase with hc | hc
        · exact absurd rfl hc
        · simp at hc
    | cons f fs ih =>
      intro hall lpo _
      cases hstep : interpStep pfx (f pfx line b e (normCtx ctx)) with
      | err ex =>
        have hok := hall f (List.mem_cons_self f fs)
        rw [hstep] at hok
        simp [stepOk] at hok
      | abortAll => exact ⟨(.vset [], .vint pfx.length), by simp [completeAux, hstep]⟩
      | produce xs lp => exact ⟨(.vtuple xs, lp), by simp [completeAux, hstep]⟩
      | skip lp =>
        obtain ⟨v, hv⟩ :=
          ih (fun g hg => hall g (List.mem_cons_of_mem _ hg)) (some lp) (Or.inr rfl)
        exact ⟨v, by simp only [completeAux, hstep]; exact hv⟩
  exact main regs h none (Or.inl hne)

/-- Witness for `complete_total`: an aborting provider followed by a
producing one; `complete` returns a result. -/
theorem complete_total_witness :
    ∃ v, complete [abortProv, fooBarPairProv] "ab" "abc" 0 2 none = .ok v :=
  complete_total [abortProv, fooBarPairProv] "ab" "abc" 0 2 none
    (by simp)
    (fun g hg => by
      rw [List.mem_cons, List.mem_singleton] at hg
      rcases hg with rfl | rfl
      · rfl
      · rfl)

/-- C4, counterexample: when the registry contains no providers at all,
`complete` does not return `(∅, len(prefix))` — it raises NameError reading
the unbound local `lprefix` on line 51. -/
theorem c4_empty_registry_counterexample :
    complete [] "xy" "xyz" 1 3 none = .error .nameError
    ∧ complete [] "xy" "xyz" 1 3 none ≠ .ok (.vset [], .vint 2) := by
  have hc : complete [] "xy" "xyz" 1 3 none = Except.error PyErr.nameError := rfl
  exact ⟨hc, fun h => Except.noConfusion (hc.symm.trans h)⟩

/-- C4 (amended): if every consulted provider yields an empty or absent
result (and none aborts), `complete` returns the empty set paired with the
replacement length bound while interpreting the LAST provider (its reported
pair component, or `len(prefix)` when it returned a bare value); when the
registry is empty, `complete` instead raises NameError on the unbound
`lprefix`. -/
theorem complete_all_skip (r₀ : List Provider) (g : Provider)
    (pfx line : String) (b e : Nat) (ctx : Option (List String)) (lp : PyVal)
    (h₁ : ∀ f ∈ r₀, ∃ lp', interpStep pfx (f pfx line b e (normCtx ctx)) = .skip lp')
    (h₂ : interpStep pfx (g pfx line b e (normCtx ctx)) = .skip lp) :
    complete (r₀ ++ [g]) pfx line b e ctx = .ok (.vset [], lp) := by
  obtain ⟨lpo', hrec⟩ := completeAux_skips pfx line b e (normCtx ctx) r₀ [g] h₁ none
  have hstep : completeAux pfx line b e (normCtx ctx) [g] lpo'
      = (.ok (.vset [], lp), 1) := by
    simp only [completeAux, h₂]
  simp [complete, hrec, hstep]

/-- Witness for `complete_all_skip`: an absent-result provider followed by
one reporting `(∅, 4)`; the fallback replacement length is the last
provider's 4, not `len(prefix) = 2`. -/
theorem complete_all_skip_witness :
    complete [noneProv, emptyPairProv] "ab" "abc" 0 2 none
      = .ok (.vset [], .vint 4) :=
  complete_all_skip [noneProv] emptyPairProv "ab" "abc" 0 2 none (.vint 4)
    (fun f hf => by
      rw [List.mem_singleton] at hf
      subst hf
      exact ⟨.vint 2, rfl⟩)
    rfl

/-- C5, counterexample: a provider returning a bare *list* of three
candidate strings — a collection of candidate strings, but also a Sequence
— is not used as the candidates with a defaulted replacement length: the
unpacking `res, lprefix = out` on line 45 raises ValueError. -/
theorem c5_bare_list_counterexample :
    complete [bareListProv] "ab" "abc" 0 2 none = .error .valueError
    ∧ complete [bareListProv] "ab" "abc" 0 2 none
        ≠ .ok (.vtuple [.vstr "a", .vstr "b", .vstr "c"], .vint 2) := by
  have hc : complete [bareListProv] "ab" "abc" 0 2 none
      = Except.error PyErr.valueError := rfl
  exact ⟨hc, fun h => Except.noConfusion (hc.symm.trans h)⟩

/-- C5 (amended): the pair/bare distinction is made by Sequence-ness, not
by shape: a Sequence return value is unpacked as `(candidates,
replacement_length)` and both components are used, while a NON-Sequence
collection (e.g. a set) of candidate strings is used as the bare candidates
with the replacement length defaulting to `len(prefix)`. -/
theorem complete_pair_vs_bare (fp fb : Provider) (pfx line : String)
    (b e : Nat) (ctx : Option (List String)) (ss : List String) (lp : PyVal)
    (hss : ss ≠ [])
    (hp : fp pfx line b e (normCtx ctx) = .ret (.vtuple [.vset (ss.map .vstr), lp]))
    (hb : fb pfx line b e (normCtx ctx) = .ret (.vset (ss.map .vstr))) :
    complete [fp] pfx line b e ctx
      = .ok (.vtuple ((sortLe strLeB ss).map .vstr), lp)
    ∧ complete [fb] pfx line b e ctx
      = .ok (.vtuple ((sortLe strLeB ss).map .vstr), .vint pfx.length) := by
  have hsort : pySorted (.vset (ss.map .vstr))
      = .ok ((sortLe strLeB ss).map .vstr) := by
    simp [pySorted, iterElems, allStrs_map]
  have hlen : ∃ n, pyLen (.vset (ss.map .vstr)) = .ok (n + 1) := by
    cases ss with
    | nil => exact absurd rfl hss
    | cons s t => exact ⟨t.length, by simp [pyLen]⟩
  obtain ⟨n, hlen⟩ := hlen
  have hres : ∀ lpv, interpRes (.vset (ss.map .vstr)) lpv
      = .produce ((sortLe strLeB ss).map .vstr) lpv := by
    intro lpv
    simp [interpRes, hlen, hsort]
  constructor
  · show (completeAux pfx line b e (normCtx ctx) [fp] none).1 = _
    simp [completeAux, hp, interpStep, resolveOut, isSequence, unpack2,
      seqElems, hres]
  · show (completeAux pfx line b e (normCtx ctx) [fb] none).1 = _
    simp [completeAux, hb, interpStep, resolveOut, isSequence, unpack2,
      seqElems, hres]

/-- Witness for `complete_pair_vs_bare`: the pair `({"foo", "bar"}, 7)`
yields replacement length 7; the bare set `{"foo", "bar"}` yields the
default `len("ab") = 2`. -/
theorem complete_pair_vs_bare_witness :
    complete [fooBarPairProv] "ab" "abc" 0 2 none
      = .ok (.vtuple [.vstr "bar", .vstr "foo"], .vint 7)
    ∧ complete [bareSetProv] "ab" "abc" 0 2 none
      = .ok (.vtuple [.vstr "bar", .vstr "foo"], .vint 2) :=
  complete_pair_vs_bare fooBarPairProv bareSetProv "ab" "abc" 0 2 none
    ["foo", "bar"] (.vint 7) (by simp) rfl rfl

/-- C10: if the providers before `f` yield empty or absent results and `f`
raises any exception other than StopIteration, that exception propagates
unchanged to the caller of `complete`, no later provider is consulted, and
no completion result is returned. -/
theorem complete_exc_propagates (r₁ r₂ : List Provider) (f : Provider)
    (pfx line : String) (b e : Nat) (ctx : Option (List String)) (ex : PyErr)
    (h₁ : ∀ g ∈ r₁, ∃ lp', interpStep pfx (g pfx line b e (normCtx ctx)) = .skip lp')
    (h₂ : f pfx line b e (normCtx ctx) = .raiseExc ex) :
    complete (r₁ ++ f :: r₂) pfx line b e ctx = .error ex
    ∧ invoked (r₁ ++ f :: r₂) pfx line b e ctx = r₁.length + 1 := by
  obtain ⟨lpo', hrec⟩ := completeAux_skips pfx line b e (normCtx ctx) r₁ (f :: r₂) h₁ none
  have hstep : completeAux pfx line b e (normCtx ctx) (f :: r₂) lpo'
      = (.error ex, 1) := by
    simp only [completeAux, h₂, interpStep]
  exact ⟨by simp [complete, hrec, hstep], by simp [invoked, hrec, hstep, Nat.add_comm]⟩

/-- Witness for `complete_exc_propagates`: a provider raising a
non-StopIteration exception between an empty provider and a producing
one. -/
theorem complete_exc_propagates_witness :
    complete [emptySetProv, failProv, bazPairProv] "ab" "abc" 0 2 none
      = .error (.raised "boom")
    ∧ invoked [emptySetProv, failProv, bazPairProv] "ab" "abc" 0 2 none = 2 :=
  complete_exc_propagates [emptySetProv] [bazPairProv] failProv
    "ab" "abc" 0 2 none (.raised "boom")
    (fun g hg => by
      rw [List.mem_singleton] at hg
      subst hg
      exact ⟨.vint 2, rfl⟩)
    rfl

/-! ## Claims about the Parser -/

/-- C6: constructing a `Location` never yields a stored value at all —
`__init__` assigns `self.lineno = line` where no name `line` is defined
(the parameter is `lineno`), so `Location(f, n, c)` raises NameError, with
and without a column; the `__str__` formatting itself does match the
claimed `"file:line"` / `"file:line:column"` shapes. -/
theorem location_init_name_error :
    Location.init "test.xsh" 3 (some 2) = .error PyErr.nameError
    ∧ Location.init "test.xsh" 3 none = .error PyErr.nameError
    ∧ Location.str ⟨"test.xsh", 3, some 2⟩ = "test.xsh:3:2"
    ∧ Location.str ⟨"test.xsh", 3, none⟩ = "test.xsh:3" :=
  ⟨rfl, rfl, rfl, rfl⟩

/-- C7: with a token present, `p_error` raises NameError (the Location
constructor bug fires while building the diagnostic location) instead of a
SyntaxError with text `"{location}: {message}"`; at end-of-input with no
token it raises exactly `SyntaxError(": no further code")`, as the claim
states for that branch. -/
theorem p_error_token_name_error :
    p_error "test.xsh" (some ⟨"x", 1⟩) 2 = PyErr.nameError
    ∧ p_error "test.xsh" none 0 = PyErr.syntaxError ": no further code" :=
  ⟨rfl, rfl⟩

/-- C8: every `parse` call unconditionally resets the lexer filename and
position and the scope stack — to a single empty scope — before reaching
for the grammar engine, so a second sequential `parse` call on the same
parser state never observes scope entries left behind by the first. -/
theorem parse_resets_scope_stack (σ : ParserState) (s₁ f₁ s₂ f₂ : String) :
    (Parser.parse σ s₁ f₁).2.scope_stack = [[]]
    ∧ (Parser.parse σ s₁ f₁).2.lexer_filename = f₁
    ∧ (Parser.parse σ s₁ f₁).2.lexer_lineno = 0
    ∧ (Parser.parse (Parser.parse σ s₁ f₁).2 s₂ f₂).2.scope_stack = [[]] :=
  ⟨rfl, rfl, rfl, rfl⟩

/-- C9: under the source's precedence table — ordered lowest-to-highest,
LOGIC_OR at level 0 through POW at level 10 — TIMES (level 9) binds tighter
than PLUS (level 8), so `1 + 2 * 3` groups the multiplication under the
addition, and the left-associative MINUS groups `a - b - c` as
`(a - b) - c`. -/
theorem precedence_grouping :
    parseExprToks [.num 1, .op "PLUS", .num 2, .op "TIMES", .num 3]
      = some (.binop "PLUS" (.num 1) (.binop "TIMES" (.num 2) (.num 3)))
    ∧ parseExprToks [.name "a", .op "MINUS", .name "b", .op "MINUS", .name "c"]
      = some (.binop "MINUS" (.binop "MINUS" (.name "a") (.name "b")) (.name "c"))
    ∧ precLevel "PLUS" = some 8 ∧ precLevel "TIMES" = some 9
    ∧ precLevel "LOGIC_OR" = some 0 ∧ precLevel "POW" = some 10
    ∧ precedence.length = 11 :=
  ⟨rfl, rfl, rfl, rfl, rfl, rfl, rfl⟩

end Xonsh
